import Mathlib

/-!
Verification development for the Daemon repository: a shallow embedding of
its parsing / security-validation / content-filtering pipeline
(`src/unnamed/part_000`, `part_001`, `part_002`, `src/src/worker.ts`),
together with theorems settling the specification claims.

Strings are modelled as `List Char`.  The JavaScript regular expressions in
the source are concrete, so each one is hand-compiled to an executable
matcher that follows the JS engine semantics (leftmost match, greedy and
lazy quantifiers with backtracking, `lastIndex` advancing past each match).
Scanners that jump over the consumed match use an explicit fuel argument
(fuel = input length + 1 suffices, since every step consumes at least one
character), keeping every definition structurally recursive and hence
kernel-reducible.
-/

namespace Daemon

/-- Character strings, modelled as lists of characters. -/
abbrev Str := List Char

/-- The JS whitespace class relevant to the documents involved
(matches `\s` and `String.trim` on the ASCII range). -/
def isSpace (c : Char) : Bool :=
  c = ' ' || c = '\t' || c = '\n' || c = '\r' || c = '\x0b' || c = '\x0c'

/-- The JS `\w` character class: letters, digits, underscore. -/
def isWordChar (c : Char) : Bool :=
  ('A' ≤ c && c ≤ 'Z') || ('a' ≤ c && c ≤ 'z') || ('0' ≤ c && c ≤ '9') || c = '_'

/-- The `[A-Z_]` class used for section names. -/
def isSectionNameChar (c : Char) : Bool :=
  ('A' ≤ c && c ≤ 'Z') || c = '_'

/-- JS `String.prototype.trim`: drop whitespace from both ends. -/
def trim (cs : Str) : Str :=
  ((cs.dropWhile isSpace).reverse.dropWhile isSpace).reverse

/-- JS `String.prototype.toLowerCase` on the ASCII range. -/
def strLower (cs : Str) : Str := cs.map Char.toLower

/-- Does `cs` start with the word `p`? -/
def beginsWith (p cs : Str) : Bool := decide (cs.take p.length = p)

/-- JS `String.prototype.includes` (substring test). -/
def containsSub : Str → Str → Bool
  | [], needle => needle.isEmpty
  | c :: t, needle => beginsWith needle (c :: t) || containsSub t needle

/-- JS record access `m[k]`: the value stored at key `k`
(the maps built below have unique keys; `find?` takes the first match). -/
def lookupStr {α : Type} (m : List (Str × α)) (k : Str) : Option α :=
  (m.find? (fun e => e.1 = k)).map (·.2)

/-- Greedy `\s*` followed by a mandatory `\n`, starting at the head of `cs`:
consume the maximal whitespace run, backtracking to the last newline inside
it.  Returns the remainder after that newline, or `none` when the leading
whitespace run holds no newline.  This is the JS behaviour of `\s*\n`. -/
def chopToLastNewline : Str → Option Str
  | [] => none
  | c :: cs =>
    if isSpace c then
      match chopToLastNewline cs with
      | some r => some r
      | none => if c = '\n' then some cs else none
    else none

/-- JS `String.prototype.split` on a literal newline. -/
def splitLines : Str → List Str
  | [] => [[]]
  | c :: cs =>
    let r := splitLines cs
    if c = '\n' then [] :: r
    else
      match r with
      | [] => [[c]]
      | p :: ps => (c :: p) :: ps

/-! ## Access-Level Model (src/unnamed/part_002 lines 114-121) -/

/-- The string `"public"`. -/
def pubW : Str := "public".data
/-- The string `"restricted"`. -/
def resW : Str := "restricted".data
/-- The string `"private"`. -/
def priW : Str := "private".data
/-- The sentinel string `"inherited"` used by the source for unresolved blocks. -/
def inheritedW : Str := "inherited".data

/-- `const levelOrder: AccessLevel[] = ['public', 'restricted', 'private']`. -/
def levelOrder : List Str := [pubW, resW, priW]

/-- JS `Array.prototype.indexOf` over `levelOrder`: the index of the level,
`-1` when absent (the source casts unchecked strings into `AccessLevel`, so
absent levels do occur and yield `-1` exactly as in JS). -/
def indexOfLevel (l : Str) : Int :=
  match levelOrder.findIdx? (fun w => w = l) with
  | some i => (i : Int)
  | none => -1

/-- `isAccessible(contentLevel, userLevel)` from part_002 lines 115-121:
`userIndex >= contentIndex` over `levelOrder` indices. -/
def isAccessible (contentLevel userLevel : Str) : Bool :=
  decide (indexOfLevel contentLevel ≤ indexOfLevel userLevel)

/-- The rank function of the specification: public = 0, restricted = 1,
private = 2 (only the three canonical levels are ever ranked). -/
def rank (l : Str) : Nat :=
  if l = pubW then 0 else if l = resW then 1 else 2

/-! ## Content blocks (src/unnamed/part_002 lines 81-112) -/

/-- A content block: trimmed text plus an access level, the level being
either one of the three level words or the `"inherited"` sentinel,
exactly as the TS union type `AccessLevel | 'inherited'`. -/
structure ContentBlock where
  content : Str
  accessLevel : Str
deriving DecidableEq, Repr

/-- The alternation `(public|restricted|private)` at the head of `cs`,
tried left to right; on success returns the captured word and the rest. -/
def matchLevelWord (cs : Str) : Option (Str × Str) :=
  if beginsWith pubW cs then some (pubW, cs.drop pubW.length)
  else if beginsWith resW cs then some (resW, cs.drop resW.length)
  else if beginsWith priW cs then some (priW, cs.drop priW.length)
  else none

/-- Match the block separator `\n@(public|restricted|private)\s*\n` at the
head of `cs`.  On success returns the captured level word and the input
remaining after the separator.  (After the level word the engine takes the
greedy `\s*` and backtracks to the last newline of the run; shortening the
greedy `\w`-free level word never helps, because the character following a
shortened word is a word character, which is not whitespace.) -/
def matchSepAt (cs : Str) : Option (Str × Str) :=
  match cs with
  | '\n' :: '@' :: rest =>
    match matchLevelWord rest with
    | some (w, r) =>
      match chopToLastNewline r with
      | some r2 => some (w, r2)
      | none => none
    | none => none
  | _ => none

/-- JS `content.split(/\n@(public|restricted|private)\s*\n/)`: scan left to
right for non-overlapping separator matches; the pieces between matches and
the captured level words are interleaved in the result, exactly as JS
`split` does with a capturing group.  Structural recursion on fuel. -/
def splitSepGo : Nat → Str → List Str
  | 0, cs => [cs]
  | _ + 1, [] => [[]]
  | fuel + 1, c :: cs =>
    match matchSepAt (c :: cs) with
    | some (w, rest) => [] :: w :: splitSepGo fuel rest
    | none =>
      match splitSepGo fuel cs with
      | [] => [[]]
      | p :: ps => (c :: p) :: ps

/-- The split with adequate fuel. -/
def splitSep (cs : Str) : List Str := splitSepGo (cs.length + 1) cs

/-- The loop `for (let i = 1; i < parts.length; i += 2)` of
`parseContentBlocks`: consume (level, text) pairs from the tail of the
parts list; the `i + 1 < parts.length` guard drops a trailing unpaired
entry; blocks with empty trimmed text are dropped. -/
def pairBlocks : List Str → List ContentBlock
  | lvl :: txt :: rest =>
    (if trim txt = [] then [] else [⟨trim txt, lvl⟩]) ++ pairBlocks rest
  | _ => []

/-- `parseContentBlocks` from part_002 lines 82-112 (identical in part_000
and part_001): split on the separator regex; the first part becomes an
`inherited` block when non-empty after trimming; each following
(level, text) pair becomes an explicitly-levelled block when non-empty
after trimming. -/
def parseContentBlocks (content : Str) : List ContentBlock :=
  let parts := splitSep content
  (match parts with
   | [] => []
   | p0 :: _ => if trim p0 = [] then [] else [⟨trim p0, inheritedW⟩]) ++
  pairBlocks (parts.drop 1)

/-- Modelled from the spec (for claim C7, refinement side): extract from a
body the text before the first recognised marker and the list of
(marker, following text) pairs, scanning left to right for the same
newline-prefixed marker occurrences the source splits on. -/
def extractMarkedGo : Nat → Str → Str × List (Str × Str)
  | 0, cs => (cs, [])
  | _ + 1, [] => ([], [])
  | fuel + 1, c :: cs =>
    match matchSepAt (c :: cs) with
    | some (w, rest) =>
      let e := extractMarkedGo fuel rest
      ([], (w, e.1) :: e.2)
    | none =>
      let e := extractMarkedGo fuel cs
      (c :: e.1, e.2)

/-- The extraction with adequate fuel. -/
def extractMarked (cs : Str) : Str × List (Str × Str) :=
  extractMarkedGo (cs.length + 1) cs

/-! ## Section parsing (src/unnamed/part_002 lines 55-79; part_000 lines 41-65) -/

/-- One match of the section regex
`\[([A-Z_]+)\](?:\s*@(\w+))?\s*\n([\s\S]*?)(?=\n\[|$)`:
captured name, optional captured level token, and the lazily captured body. -/
structure RawSection where
  name : Str
  level : Option Str
  body : Str
deriving DecidableEq, Repr

/-- The lazy body `([\s\S]*?)(?=\n\[|$)`: the shortest prefix such that the
remainder starts with `\n[` or is empty.  Returns (body, remainder); the
lookahead is not consumed, so the remainder keeps the `\n[`. -/
def takeBody : Str → Str × Str
  | [] => ([], [])
  | c :: cs =>
    if c = '\n' && (match cs with | '[' :: _ => true | _ => false) then
      ([], c :: cs)
    else
      let r := takeBody cs
      (c :: r.1, r.2)

/-- Attempt the section regex at the head of `cs`.  `[` then a non-empty
`[A-Z_]+` name then `]`; then the optional group `(?:\s*@(\w+))?` (greedy
`\s*` may cross newlines, so only the first non-whitespace character can be
the `@`; when the group fails or no newline follows the captured word, the
engine backtracks to leave the group unmatched); then `\s*\n` via
`chopToLastNewline`; then the lazy body.  Returns the match and the input
remaining at `lastIndex` (end of body). -/
def matchSectionAt (cs : Str) : Option (RawSection × Str) :=
  match cs with
  | '[' :: r1 =>
    let name := r1.takeWhile isSectionNameChar
    if name = [] then none
    else
      match r1.drop name.length with
      | ']' :: after =>
        let tryLevel : Option (Str × Str) :=
          match after.dropWhile isSpace with
          | '@' :: r2 =>
            let w := r2.takeWhile isWordChar
            if w = [] then none
            else
              match chopToLastNewline (r2.drop w.length) with
              | some r3 => some (w, r3)
              | none => none
          | _ => none
        match tryLevel with
        | some (w, r3) =>
          let b := takeBody r3
          some (⟨name, some w, b.1⟩, b.2)
        | none =>
          match chopToLastNewline after with
          | some r3 =>
            let b := takeBody r3
            some (⟨name, none, b.1⟩, b.2)
          | none => none
      | _ => none
  | _ => none

/-- The `while ((match = sectionRegex.exec(content)) !== null)` loop: scan
forward one character at a time until the regex matches, emit the match,
continue from `lastIndex`.  Fuel-structural. -/
def scanSectionsGo : Nat → Str → List RawSection
  | 0, _ => []
  | _ + 1, [] => []
  | fuel + 1, c :: cs =>
    match matchSectionAt (c :: cs) with
    | some (s, rest) => s :: scanSectionsGo fuel rest
    | none => scanSectionsGo fuel cs

/-- All section-regex matches of a document, in order. -/
def scanSections (cs : Str) : List RawSection := scanSectionsGo (cs.length + 1) cs

/-- A parsed section: lowercased name, optional declared level
(the TS field `defaultAccessLevel?: AccessLevel`), content blocks. -/
structure ParsedSection where
  name : Str
  defaultAccessLevel : Option Str
  content : List ContentBlock
deriving DecidableEq, Repr

/-- JS object assignment `sections[key] = v`: replace the value in place
when the key exists (keeping first-insertion order), append otherwise. -/
def insertEntry (m : List (Str × ParsedSection)) (k : Str) (v : ParsedSection) :
    List (Str × ParsedSection) :=
  if m.any (fun e => e.1 = k) then
    m.map (fun e => if e.1 = k then (k, v) else e)
  else m ++ [(k, v)]

/-- `parseDaemonDataWithAccess` from part_002 lines 56-79 (the worker):
a missing level token defaults to `'public'` at parse time; the captured
token is lowercased; the body is trimmed before block parsing; a repeated
section name overwrites the earlier entry. -/
def parseDaemonDataWithAccessServer (content : Str) : List (Str × ParsedSection) :=
  (scanSections content).foldl
    (fun m s =>
      let nm := strLower s.name
      insertEntry m nm
        ⟨nm, some ((s.level.map strLower).getD pubW), parseContentBlocks (trim s.body)⟩)
    []

/-- `parseDaemonDataWithAccess` from part_000 lines 42-65 and part_001
lines 41-62 (build and CLI validator): a missing level token stays
`undefined` rather than defaulting. -/
def parseDaemonDataWithAccessBuild (content : Str) : List (Str × ParsedSection) :=
  (scanSections content).foldl
    (fun m s =>
      let nm := strLower s.name
      insertEntry m nm
        ⟨nm, s.level.map strLower, parseContentBlocks (trim s.body)⟩)
    []

/-! ## Content filter (src/unnamed/part_002 lines 123-153, 206-228) -/

/-- `resolveContentAccessLevel` from part_002 lines 124-132. -/
def resolveContentAccessLevel (blockAccessLevel sectionDefaultLevel : Str) : Str :=
  if blockAccessLevel = inheritedW then sectionDefaultLevel else blockAccessLevel

/-- The level `filterSectionContent` actually enforces for a block:
`resolveContentAccessLevel(block.accessLevel, section.defaultAccessLevel || 'public')`. -/
def effectiveLevel (s : ParsedSection) (b : ContentBlock) : Str :=
  resolveContentAccessLevel b.accessLevel (s.defaultAccessLevel.getD pubW)

/-- The accessible-block collection loop of `filterSectionContent`
(part_002 lines 135-153): the contents of the blocks whose effective level
is accessible at the requester level, in order. -/
def accessibleBlocks (s : ParsedSection) (userLevel : Str) : List Str :=
  s.content.filterMap
    (fun b => if isAccessible (effectiveLevel s b) userLevel then some b.content else none)

/-- JS `Array.prototype.join(sep)`. -/
def joinSep (sep : Str) : List Str → Str
  | [] => []
  | [x] => x
  | x :: y :: r => x ++ sep ++ joinSep sep (y :: r)

/-- `filterSectionContent` from part_002 lines 135-153:
accessible blocks joined with a blank line. -/
def filterSectionContent (s : ParsedSection) (userLevel : Str) : Str :=
  joinSep "\n\n".data (accessibleBlocks s userLevel)

/-- `getDaemonContent` from part_002 lines 181-204 (and worker.ts
lines 144-167): the asset fetch is modelled by its result, `some text`
when the provider supplied the document and `none` when it could not; the
`catch` branch returns the empty string. -/
def getDaemonContent (fetched : Option Str) : Str :=
  match fetched with
  | some t => t
  | none => []

/-- `loadDaemonData` from part_002 lines 207-228, with the document text
already fetched: parse, filter each section at the requester level, keep a
section only when its filtered text is non-empty after trimming.  No
security validation happens on this path. -/
def loadDaemonData (accessLevel : Str) (content : Str) : List (Str × Str) :=
  (parseDaemonDataWithAccessServer content).filterMap
    (fun e =>
      let f := filterSectionContent e.2 accessLevel
      if trim f = [] then none else some (e.1, f))

/-! ## Security Validator (src/unnamed/part_000 lines 132-172; part_001 lines 132-168) -/

/-- One security violation.  The source formats these three fields into the
message string `SECURITY VIOLATION: Section [NAME] is @sectionLevel, but
contains @blockLevel content ...` (the name uppercased for display); the
record keeps the interpolated data. -/
structure SecurityViolation where
  sectionName : Str
  sectionLevel : Str
  blockLevel : Str
deriving DecidableEq, Repr

/-- The inner loop of `validateContentSecurity` for one section entry:
a section with no declared level is skipped; inherited blocks are skipped;
a non-inherited block whose `levelOrder` index is strictly below the
section index is recorded. -/
def sectionViolations (e : Str × ParsedSection) : List SecurityViolation :=
  match e.2.defaultAccessLevel with
  | none => []
  | some lv =>
    e.2.content.filterMap (fun b =>
      if b.accessLevel = inheritedW then none
      else if indexOfLevel b.accessLevel < indexOfLevel lv then
        some ⟨e.1, lv, b.accessLevel⟩
      else none)

/-- The accumulation loops of `validateContentSecurity`, run over the
already-parsed sections: all violations of all sections are collected,
none stops the scan. -/
def validateSections (secs : List (Str × ParsedSection)) : List SecurityViolation :=
  (secs.map sectionViolations).flatten

/-- `validateContentSecurity` from part_000 lines 132-172: parse the raw
text (build variant, no level defaulting) and collect the violations;
`valid` is emptiness of the error list. -/
def validateContentSecurity (content : Str) : Bool × List SecurityViolation :=
  let errs := validateSections (parseDaemonDataWithAccessBuild content)
  (errs.isEmpty, errs)

/-! ## Format validation (src/unnamed/part_001 lines 93-130; part_000 lines 101-129) -/

/-- A format issue: a section header marker with some token, or a content
marker token; the source formats these into the error strings
`Section "NAME" has invalid access level: @token` and
`Invalid content access level: @token`. -/
inductive FormatIssue where
  | sectionIssue (name token : Str)
  | contentIssue (token : Str)
deriving DecidableEq, Repr

/-- The exec loop of `/\[([A-Z_]+)\]\s*@(\w+)/g`: every occurrence of a
bracketed name followed by whitespace (which may span line breaks) and an
`@`-token, scanning forward and resuming after each match. -/
def scanHeaderLevelsGo : Nat → Str → List (Str × Str)
  | 0, _ => []
  | _ + 1, [] => []
  | fuel + 1, c :: cs =>
    (if c = '[' then
      let name := cs.takeWhile isSectionNameChar
      if name = [] then none
      else
        match cs.drop name.length with
        | ']' :: after =>
          match after.dropWhile isSpace with
          | '@' :: r2 =>
            let w := r2.takeWhile isWordChar
            if w = [] then none else some ((name, w), r2.drop w.length)
          | _ => none
        | _ => none
    else none).elim (scanHeaderLevelsGo fuel cs)
      (fun m => m.1 :: scanHeaderLevelsGo fuel m.2)

/-- All `[NAME] ... @token` occurrences of a document. -/
def scanHeaderLevels (cs : Str) : List (Str × Str) := scanHeaderLevelsGo (cs.length + 1) cs

/-- The exec loop of `/@(\w+)\s*\n/g`: every occurrence, anywhere in a
line, of an `@`-token followed by whitespace ending in a newline. -/
def scanContentLevelsGo : Nat → Str → List Str
  | 0, _ => []
  | _ + 1, [] => []
  | fuel + 1, c :: cs =>
    (if c = '@' then
      let w := cs.takeWhile isWordChar
      if w = [] then none
      else
        match chopToLastNewline (cs.drop w.length) with
        | some rest => some (w, rest)
        | none => none
    else none).elim (scanContentLevelsGo fuel cs)
      (fun m => m.1 :: scanContentLevelsGo fuel m.2)

/-- All `@token ... \n` occurrences of a document. -/
def scanContentLevels (cs : Str) : List Str := scanContentLevelsGo (cs.length + 1) cs

/-- The exec loop of `/\[([A-Z_]+)\](?!\s*@\w)/g` (part_001 lines 98-103):
bracketed names not followed by whitespace, `@` and a word character. -/
def scanUnleveledGo : Nat → Str → List Str
  | 0, _ => []
  | _ + 1, [] => []
  | fuel + 1, c :: cs =>
    (if c = '[' then
      let name := cs.takeWhile isSectionNameChar
      if name = [] then none
      else
        match cs.drop name.length with
        | ']' :: after =>
          match after.dropWhile isSpace with
          | '@' :: r2 => if r2.takeWhile isWordChar = [] then some (name, after) else none
          | _ => some (name, after)
        | _ => none
    else none).elim (scanUnleveledGo fuel cs)
      (fun m => m.1 :: scanUnleveledGo fuel m.2)

/-- All headers lacking a level marker. -/
def scanUnleveled (cs : Str) : List Str := scanUnleveledGo (cs.length + 1) cs

/-- The result of `validateAccessFormat`. -/
structure FormatResult where
  valid : Bool
  errors : List FormatIssue
  warnings : List Str
deriving DecidableEq, Repr

/-- `validateAccessFormat` from part_001 lines 93-130: section-header
tokens outside the three canonical levels are errors; content `@token`
occurrences (as matched by `/@(\w+)\s*\n/g`) outside the canonical levels
are errors, pushed after the header errors; headers without a marker are
warnings; `valid` ignores warnings.  All issues are accumulated in one
pass.  (part_000 lines 101-129 is the same without warnings.) -/
def validateAccessFormat (content : Str) : FormatResult :=
  let errs1 := (scanHeaderLevels content).filterMap
    (fun p => if p.2 ∈ levelOrder then none else some (FormatIssue.sectionIssue p.1 p.2))
  let errs2 := (scanContentLevels content).filterMap
    (fun w => if w ∈ levelOrder then none else some (FormatIssue.contentIssue w))
  ⟨(errs1 ++ errs2).isEmpty, errs1 ++ errs2, scanUnleveled content⟩

/-! ## Structured extractor (src/unnamed/part_002 lines 230-305) -/

/-- `const LIST_SECTIONS = [...]` from part_002 lines 231-238. -/
def LIST_SECTIONS : List Str :=
  ["favorite_books".data, "favorite_movies".data, "favorite_podcasts".data,
   "predictions".data, "preferences".data, "daily_routine".data]

/-- `line.replace(/^-\s*/, '').trim()`: strip one leading dash and the
whitespace after it (only when the line starts with the dash), then trim. -/
def stripBullet (line : Str) : Str :=
  trim (match line with
        | '-' :: r => r.dropWhile isSpace
        | l => l)

/-- `parseMarkdownList` from part_002 lines 241-248: keep lines whose
trimmed form starts with a dash, strip the bullet, drop empties. -/
def parseMarkdownList (content : Str) : List Str :=
  if content = [] then []
  else
    (((splitLines content).filter (fun l => beginsWith ['-'] (trim l))).map
      stripBullet).filter (fun s => s ≠ [])

/-- The test `/^-\s*[PMG]\d+:/.test(line.trim())` from part_002 line 255. -/
def telosLineTest (line : Str) : Bool :=
  match trim line with
  | '-' :: r =>
    match r.dropWhile isSpace with
    | c :: r2 =>
      (c = 'P' || c = 'M' || c = 'G') &&
      (let ds := r2.takeWhile Char.isDigit
       ds ≠ [] && beginsWith [':'] (r2.drop ds.length))
    | [] => false
  | _ => false

/-- `parseTelosItems` from part_002 lines 251-258. -/
def parseTelosItems (content : Str) : List Str :=
  if content = [] then []
  else
    (((splitLines content).filter telosLineTest).map stripBullet).filter
      (fun s => s ≠ [])

/-- The category state of the projects parser. -/
inductive PCat where
  | technical
  | creative
  | personal
deriving DecidableEq, Repr

/-- The three optional category lists of the projects record. -/
structure Projects where
  technical : Option (List Str)
  creative : Option (List Str)
  personal : Option (List Str)
deriving DecidableEq, Repr

/-- `projects[currentCategory]?.push(item)`. -/
def pushProj (p : Projects) (c : PCat) (item : Str) : Projects :=
  match c with
  | .technical => { p with technical := some ((p.technical.getD []) ++ [item]) }
  | .creative => { p with creative := some ((p.creative.getD []) ++ [item]) }
  | .personal => { p with personal := some ((p.personal.getD []) ++ [item]) }

/-- One iteration of the projects loop (part_002 lines 276-291): a line
whose trimmed lowercase form contains a category word starts that category
with an empty list; otherwise a bullet line is appended to the current
category when one is active and its stripped text is non-empty. -/
def projStep (st : Projects × Option PCat) (line : Str) : Projects × Option PCat :=
  let t := strLower (trim line)
  if containsSub t "technical".data then
    ({ st.1 with technical := some [] }, some .technical)
  else if containsSub t "creative".data then
    ({ st.1 with creative := some [] }, some .creative)
  else if containsSub t "personal".data then
    ({ st.1 with personal := some [] }, some .personal)
  else
    match st.2 with
    | some c =>
      if beginsWith ['-'] (trim line) then
        let item := stripBullet line
        if item = [] then st else (pushProj st.1 c item, st.2)
      else st
    | none => st

/-- The projects branch of `parseStructuredData` (part_002 lines 270-298):
fold the category loop over the lines; when no category header was ever
seen, all bullet lines land under `technical`. -/
def parseProjects (value : Str) : Projects :=
  let r := ((splitLines value).foldl projStep (⟨none, none, none⟩, none)).1
  if r.technical = none && r.creative = none && r.personal = none then
    ⟨some (parseMarkdownList value), none, none⟩
  else r

/-- A value of the structured record: the source builds a heterogeneous JS
record (plain text, arrays, or the projects record). -/
inductive StructuredValue where
  | text (s : Str)
  | list (xs : List Str)
  | projects (p : Projects)
deriving DecidableEq, Repr

/-- `parseStructuredData` from part_002 lines 261-305. -/
def parseStructuredData (sections : List (Str × Str)) : List (Str × StructuredValue) :=
  sections.map (fun e =>
    if e.1 ∈ LIST_SECTIONS then (e.1, .list (parseMarkdownList e.2))
    else if e.1 = "telos".data then (e.1, .list (parseTelosItems e.2))
    else if e.1 = "projects".data then (e.1, .projects (parseProjects e.2))
    else (e.1, .text e.2))

/-! ## Query Router (src/unnamed/part_002 lines 20-53, 307-478) -/

/-- The `TOOLS` list of part_002 lines 21-53, reduced to the
(name, accessLevel) fields the handler consults (descriptions and the
input schema play no role in routing). -/
def TOOLS : List (Str × Str) :=
  [("get_about".data, pubW), ("get_narrative".data, resW), ("get_mission".data, pubW),
   ("get_projects".data, resW), ("get_telos".data, resW), ("get_favorite_books".data, pubW),
   ("get_favorite_movies".data, pubW), ("get_current_location".data, pubW),
   ("get_preferences".data, resW), ("get_daily_routine".data, resW),
   ("get_predictions".data, resW), ("get_favorite_podcasts".data, pubW),
   ("get_personal_contacts".data, priW), ("get_family_details".data, priW),
   ("get_mico_instructions".data, priW), ("get_all".data, pubW), ("get_section".data, pubW)]

/-- `toolToSection` from part_002 lines 308-324. -/
def toolToSection : List (Str × Str) :=
  [("get_about".data, "about".data), ("get_narrative".data, "narrative".data),
   ("get_mission".data, "mission".data), ("get_projects".data, "projects".data),
   ("get_telos".data, "telos".data), ("get_favorite_books".data, "favorite_books".data),
   ("get_favorite_movies".data, "favorite_movies".data),
   ("get_current_location".data, "current_location".data),
   ("get_preferences".data, "preferences".data),
   ("get_daily_routine".data, "daily_routine".data),
   ("get_predictions".data, "predictions".data),
   ("get_favorite_podcasts".data, "favorite_podcasts".data),
   ("get_personal_contacts".data, "personal_contacts".data),
   ("get_family_details".data, "family_details".data),
   ("get_mico_instructions".data, "mico_instructions".data)]

/-- The fallback text `Section '<name>' not found or not accessible`. -/
def notFoundText (s : Str) : Str :=
  "Section '".data ++ s ++ "' not found or not accessible".data

/-- The outcome of one `tools/call` request: a JSON-RPC error object, or a
success response carrying the result text; the `get_all` success carries
the structured record the source serializes with `JSON.stringify`. -/
inductive McpOutcome where
  | error (code : Int) (message : Str)
  | success (text : Str)
  | successAll (data : List (Str × StructuredValue))
deriving DecidableEq, Repr

/-- The `tools/call` branch of `handleMcpRequest` (part_002 lines
416-458), with the filtered sections already loaded: reject a missing or
empty tool name; an unknown tool is JSON-RPC error -32601; an inaccessible
tool is error -32603; `get_all` returns the structured record;
`get_section` looks up an arbitrary lowercased name, an absent or empty
name being error -32602; a mapped tool looks up its fixed section; a
missing section falls back to the not-found text inside a success
response. -/
def handleToolsCall (userLevel : Str) (toolName : Option Str) (argSection : Option Str)
    (sections : List (Str × Str)) : McpOutcome :=
  match toolName with
  | none => .error (-32602) "Invalid params: missing tool name".data
  | some tn =>
    if tn = [] then .error (-32602) "Invalid params: missing tool name".data
    else
      match TOOLS.find? (fun t => t.1 = tn) with
      | none => .error (-32601) ("Unknown tool: ".data ++ tn)
      | some t =>
        if ¬ isAccessible t.2 userLevel then
          .error (-32603)
            ("Access denied: ".data ++ tn ++ " requires ".data ++ t.2 ++ " access".data)
        else if tn = "get_all".data then .successAll (parseStructuredData sections)
        else if tn = "get_section".data then
          match argSection.map strLower with
          | none => .error (-32602) "Invalid params: missing section name".data
          | some s =>
            if s = [] then .error (-32602) "Invalid params: missing section name".data
            else .success ((lookupStr sections s).getD (notFoundText s))
        else
          match lookupStr toolToSection tn with
          | some s => .success ((lookupStr sections s).getD (notFoundText s))
          | none => .error (-32601) ("Unknown tool: ".data ++ tn)

/-! ## Helper lemmas -/

theorem trim_eq_nil_iff (cs : Str) : trim cs = [] ↔ ∀ c ∈ cs, isSpace c := by
  unfold trim
  rw [List.reverse_eq_nil_iff, List.dropWhile_eq_nil_iff]
  constructor
  · intro h c hc
    rcases List.mem_append.mp
      ((List.takeWhile_append_dropWhile (p := isSpace) (l := cs)) ▸ hc) with h1 | h1
    · exact List.mem_takeWhile_imp h1
    · exact h c (List.mem_reverse.mpr h1)
  · intro h c hc
    exact h c (List.dropWhile_subset _ (List.mem_reverse.mp hc))

theorem mem_joinSep {sep : Str} {xs : List Str} {c : Char} (h : c ∈ joinSep sep xs) :
    c ∈ sep ∨ ∃ x ∈ xs, c ∈ x := by
  induction xs with
  | nil => simp [joinSep] at h
  | cons x ys ih =>
    cases ys with
    | nil =>
      simp only [joinSep] at h
      exact Or.inr ⟨x, by simp, h⟩
    | cons y zs =>
      simp only [joinSep, List.mem_append] at h
      rcases h with (h | h) | h
      · exact Or.inr ⟨x, by simp, h⟩
      · exact Or.inl h
      · rcases ih h with h1 | ⟨z, hz, hcz⟩
        · exact Or.inl h1
        · exact Or.inr ⟨z, List.mem_cons_of_mem _ hz, hcz⟩

theorem mem_joinSep_of_mem {sep : Str} {xs : List Str} {x : Str} {c : Char}
    (hx : x ∈ xs) (hc : c ∈ x) : c ∈ joinSep sep xs := by
  induction xs with
  | nil => simp at hx
  | cons h t ih =>
    cases t with
    | nil =>
      simp only [List.mem_singleton] at hx
      simpa [joinSep, hx] using hc
    | cons y zs =>
      rcases List.mem_cons.mp hx with rfl | hx2
      · simp [joinSep, List.mem_append, hc]
      · simp [joinSep, List.mem_append, ih hx2]

theorem filterMap_guard_sublist {α β : Type} (l : List α) (p q : α → Bool) (f : α → β)
    (hpq : ∀ a, p a = true → q a = true) :
    List.Sublist (l.filterMap fun a => if p a then some (f a) else none)
      (l.filterMap fun a => if q a then some (f a) else none) := by
  induction l with
  | nil => simp
  | cons a t ih =>
    simp only [List.filterMap_cons]
    by_cases hp : p a = true
    · rw [if_pos hp, if_pos (hpq a hp)]
      exact ih.cons₂ (f a)
    · rw [if_neg hp]
      by_cases hq : q a = true
      · rw [if_pos hq]
        exact ih.cons (f a)
      · rw [if_neg hq]
        exact ih

theorem mem_filterMap_guard {α β : Type} {l : List α} {p : α → Bool} {f : α → β} {b : β} :
    (b ∈ l.filterMap fun a => if p a then some (f a) else none) ↔
      ∃ a ∈ l, p a = true ∧ f a = b := by
  rw [List.mem_filterMap]
  constructor
  · rintro ⟨a, ha, hfa⟩
    by_cases hp : p a = true
    · rw [if_pos hp] at hfa
      exact ⟨a, ha, hp, Option.some_injective _ hfa⟩
    · rw [if_neg hp] at hfa
      exact absurd hfa (by simp)
  · rintro ⟨a, ha, hp, rfl⟩
    exact ⟨a, ha, by rw [if_pos hp]⟩

theorem length_filterMap_guard2 {α β : Type} (l : List α) (p q : α → Bool) (f : α → β) :
    (l.filterMap fun a => if p a then none else if q a then some (f a) else none).length
      = (l.filter fun a => !p a && q a).length := by
  induction l with
  | nil => simp
  | cons a t ih =>
    by_cases hp : p a = true <;> by_cases hq : q a = true <;>
      simp [List.filterMap_cons, List.filter_cons, hp, hq, ih]

theorem lookupStr_ne_none {α : Type} {m : List (Str × α)} {k : Str} :
    lookupStr m k ≠ none ↔ ∃ e ∈ m, e.1 = k := by
  unfold lookupStr
  constructor
  · intro h
    have h2 : (m.find? (fun e => e.1 = k)).isSome := by
      cases hf : m.find? (fun e => e.1 = k) with
      | none => simp [hf] at h
      | some v => simp
    rcases List.find?_isSome.mp h2 with ⟨e, he, hp⟩
    exact ⟨e, he, by simpa using hp⟩
  · rintro ⟨e, he, hk⟩
    have h2 : (m.find? (fun e => e.1 = k)).isSome :=
      List.find?_isSome.mpr ⟨e, he, by simpa using hk⟩
    cases hf : m.find? (fun e => e.1 = k) with
    | none => rw [hf] at h2; simp at h2
    | some v => simp [hf]

theorem indexOfLevel_eq_rank {l : Str} (h : l ∈ levelOrder) :
    indexOfLevel l = (rank l : Int) := by
  simp only [levelOrder, List.mem_cons, List.not_mem_nil, or_false] at h
  rcases h with rfl | rfl | rfl <;> decide

theorem isAccessible_mono {c x y : Str} (hxy : indexOfLevel x ≤ indexOfLevel y)
    (h : isAccessible c x = true) : isAccessible c y = true := by
  unfold isAccessible at *
  exact decide_eq_true (le_trans (of_decide_eq_true h) hxy)

/-- The separator `"\n\n"` is all whitespace. -/
theorem sepAllSpace : ∀ c ∈ "\n\n".data, isSpace c := by decide

/-- The filtered text of a section is non-empty after trimming exactly when
some block of the section is accessible at the requester level and itself
has non-empty trimmed text. -/
theorem trim_filterSection_ne_nil (s : ParsedSection) (lvl : Str) :
    trim (filterSectionContent s lvl) ≠ [] ↔
      ∃ b ∈ s.content, isAccessible (effectiveLevel s b) lvl = true ∧ trim b.content ≠ [] := by
  unfold filterSectionContent
  rw [Ne, trim_eq_nil_iff]
  constructor
  · intro h
    rcases not_forall.mp h with ⟨c, hc⟩
    rcases Classical.not_imp.mp hc with ⟨hcm, hcsp⟩
    rcases mem_joinSep hcm with hsep | ⟨x, hx, hcx⟩
    · exact absurd (sepAllSpace c hsep) hcsp
    · rcases mem_filterMap_guard.mp hx with ⟨b, hb, hacc, hbc⟩
      refine ⟨b, hb, hacc, ?_⟩
      rw [Ne, trim_eq_nil_iff]
      intro hall
      exact hcsp (hall c (hbc ▸ hcx))
  · rintro ⟨b, hb, hacc, hbt⟩
    rw [Ne, trim_eq_nil_iff] at hbt
    rcases not_forall.mp hbt with ⟨c, hc⟩
    rcases Classical.not_imp.mp hc with ⟨hcm, hcsp⟩
    intro hall
    have hbm : b.content ∈ accessibleBlocks s lvl :=
      mem_filterMap_guard.mpr ⟨b, hb, hacc, rfl⟩
    exact hcsp (hall c (mem_joinSep_of_mem hbm hcm))

/-- The served map holds a key exactly when some parsed section entry of
that key has an accessible block with non-empty trimmed text. -/
theorem lookup_load_iff (content : Str) (lvl k : Str) :
    lookupStr (loadDaemonData lvl content) k ≠ none ↔
      ∃ e ∈ parseDaemonDataWithAccessServer content, e.1 = k ∧
        ∃ b ∈ e.2.content, isAccessible (effectiveLevel e.2 b) lvl = true ∧
          trim b.content ≠ [] := by
  rw [lookupStr_ne_none]
  unfold loadDaemonData
  constructor
  · rintro ⟨e, he, hk⟩
    rcases List.mem_filterMap.mp he with ⟨src, hsrc, hsome⟩
    by_cases ht : trim (filterSectionContent src.2 lvl) = []
    · rw [if_pos ht] at hsome
      exact absurd hsome (by simp)
    · rw [if_neg ht] at hsome
      rcases (trim_filterSection_ne_nil src.2 lvl).mp ht with ⟨b, hb, hacc, hbt⟩
      have hkey : src.1 = k := by
        have : (src.1, filterSectionContent src.2 lvl) = e := Option.some_injective _ hsome
        rw [← this] at hk
        exact hk
      exact ⟨src, hsrc, hkey, b, hb, hacc, hbt⟩
  · rintro ⟨e, he, hk, b, hb, hacc, hbt⟩
    have ht : trim (filterSectionContent e.2 lvl) ≠ [] :=
      (trim_filterSection_ne_nil e.2 lvl).mpr ⟨b, hb, hacc, hbt⟩
    refine ⟨(e.1, filterSectionContent e.2 lvl), List.mem_filterMap.mpr ⟨e, he, ?_⟩, hk⟩
    rw [if_neg ht]

/-- Interleave the (marker, text) pairs back into a flat parts list. -/
def flattenPairs : List (Str × Str) → List Str
  | [] => []
  | p :: ps => p.1 :: p.2 :: flattenPairs ps

/-- The flat JS split result is the pre-marker text followed by the
interleaved (marker, text) pairs of the structured extraction. -/
theorem splitSepGo_eq_extract (fuel : Nat) :
    ∀ cs : Str, splitSepGo fuel cs =
      (extractMarkedGo fuel cs).1 :: flattenPairs (extractMarkedGo fuel cs).2 := by
  induction fuel with
  | zero => intro cs; simp [splitSepGo, extractMarkedGo, flattenPairs]
  | succ n ih =>
    intro cs
    cases cs with
    | nil => simp [splitSepGo, extractMarkedGo, flattenPairs]
    | cons c t =>
      simp only [splitSepGo, extractMarkedGo]
      cases hm : matchSepAt (c :: t) with
      | some m =>
        simp only [flattenPairs]
        rw [ih m.2]
      | none =>
        rw [ih t]

/-- The pairwise block loop over an interleaved parts tail equals the
direct filter over the (marker, text) pairs. -/
theorem pairBlocks_flattenPairs (ps : List (Str × Str)) :
    pairBlocks (flattenPairs ps) =
      ps.filterMap (fun p => if trim p.2 = [] then none else some ⟨trim p.2, p.1⟩) := by
  induction ps with
  | nil => simp [flattenPairs, pairBlocks]
  | cons p t ih =>
    simp only [flattenPairs, pairBlocks, List.filterMap_cons, ih]
    by_cases h : trim p.2 = []
    · rw [if_pos h, if_pos h]
      simp
    · rw [if_neg h, if_neg h]
      simp

/-! ## Claims -/

/-- A document whose `notes` section is declared restricted yet holds an
explicitly public block: the monotonicity invariant fails on it. -/
def c1Doc : Str := "[NOTES] @restricted\nSecret\n@public\nPublicNote".data

/-- C1: the claim says a document in which a declared section holds a
non-inherited block of strictly lower level is never passed to the Content
Filter and never served.  The serving pipeline (`loadDaemonData`) performs
no security validation at all: on `c1Doc`, which `validateContentSecurity`
rejects with exactly the expected violation, the Content Filter still runs
and the pipeline serves the under-classified `PublicNote` text to a public
requester. -/
theorem claim_C1_serving_skips_validator :
    (validateContentSecurity c1Doc).1 = false ∧
    (validateContentSecurity c1Doc).2 = [⟨"notes".data, resW, pubW⟩] ∧
    loadDaemonData pubW c1Doc = [("notes".data, "PublicNote".data)] := by
  refine ⟨by decide, by decide, by decide⟩

/-- All nine (content level, requester level) pairs over the three
canonical levels. -/
def levelPairs : List (Str × Str) :=
  (levelOrder.map (fun c => levelOrder.map (fun u => (c, u)))).flatten

/-- C2: `isAccessible(content, requester)` is true exactly when
`rank requester >= rank content`; over the three canonical levels the 3×3
truth table has exactly 6 true entries and 3 false entries, the 3
equal-level pairs all being true. -/
theorem claim_C2_access_truth_table :
    (∀ c u : Str, c ∈ levelOrder → u ∈ levelOrder →
      (isAccessible c u = true ↔ rank c ≤ rank u)) ∧
    (levelPairs.filter (fun p => isAccessible p.1 p.2)).length = 6 ∧
    (levelPairs.filter (fun p => !isAccessible p.1 p.2)).length = 3 ∧
    (∀ l ∈ levelOrder, isAccessible l l = true) := by
  refine ⟨?_, by decide, by decide, by decide⟩
  intro c u hc hu
  simp only [levelOrder, List.mem_cons, List.not_mem_nil, or_false] at hc hu
  rcases hc with rfl | rfl | rfl <;> rcases hu with rfl | rfl | rfl <;> decide

/-- Witness for C2 at content level public and requester level restricted. -/
theorem claim_C2_witness :
    pubW ∈ levelOrder ∧ resW ∈ levelOrder ∧
      (isAccessible pubW resW = true ↔ rank pubW ≤ rank resW) :=
  ⟨by decide, by decide, claim_C2_access_truth_table.1 pubW resW (by decide) (by decide)⟩

/-- C8 counterexample: when the provider cannot supply the document text
the API does not surface a distinct failure — the request resolves exactly
as for an empty document, to an ordinary success response carrying the
not-found text; moreover a non-empty headerless string also parses to zero
sections, refuting the claim that only the empty string does. -/
theorem claim_C8_counterexample :
    handleToolsCall pubW (some "get_about".data) none
        (loadDaemonData pubW (getDaemonContent none))
      = handleToolsCall pubW (some "get_about".data) none
        (loadDaemonData pubW (getDaemonContent (some []))) ∧
    handleToolsCall pubW (some "get_about".data) none
        (loadDaemonData pubW (getDaemonContent none))
      = .success (notFoundText "about".data) ∧
    parseDaemonDataWithAccessServer "hello".data = [] ∧ "hello".data ≠ [] :=
  ⟨rfl, by decide, by decide, by decide⟩

/-- C8 amended: provider failure is handled by continuing with the empty
string, so every request resolves exactly as it would on an empty
document; an empty document parses to zero sections. -/
theorem claim_C8_amended :
    (∀ lvl tool arg,
      handleToolsCall lvl tool arg (loadDaemonData lvl (getDaemonContent none))
        = handleToolsCall lvl tool arg (loadDaemonData lvl (getDaemonContent (some [])))) ∧
    parseDaemonDataWithAccessServer (getDaemonContent none) = [] :=
  ⟨fun _ _ _ => rfl, rfl⟩

/-- C5 counterexample: an unknown tool identifier and a tool whose section
the Content Filter omitted do not resolve to the same not-found outcome —
the former is a JSON-RPC error object, the latter an ordinary success
response carrying the not-found text. -/
theorem claim_C5_counterexample :
    handleToolsCall pubW (some "get_nonexistent".data) none (loadDaemonData pubW [])
      ≠ handleToolsCall pubW (some "get_about".data) none (loadDaemonData pubW []) := by
  decide

/-- C5 amended: the unknown identifier `get_nonexistent` yields the same
unknown-tool error at every requester level and for every filtered map;
and for a tool mapped to a section, the outcome when that section is
missing from the filtered map does not depend on which map it is missing
from — absence and full restriction are indistinguishable — though that
outcome is a success response distinct from the unknown-tool error. -/
theorem claim_C5_amended :
    (∀ lvl sections arg,
      handleToolsCall lvl (some "get_nonexistent".data) arg sections
        = .error (-32601) "Unknown tool: get_nonexistent".data) ∧
    (∀ lvl tn sec s1 s2,
      lookupStr toolToSection tn = some sec →
      lookupStr s1 sec = none → lookupStr s2 sec = none →
      handleToolsCall lvl (some tn) none s1 = handleToolsCall lvl (some tn) none s2) := by
  constructor
  · intro lvl sections arg
    rfl
  · intro lvl tn sec s1 s2 hmap h1 h2
    have htn : ¬ tn = [] := by
      rintro rfl
      have hn : lookupStr toolToSection ([] : Str) = none := by decide
      rw [hn] at hmap
      exact Option.noConfusion hmap
    simp only [handleToolsCall, if_neg htn]
    cases hf : TOOLS.find? (fun t => t.1 = tn) with
    | none => rfl
    | some t =>
      by_cases hacc : isAccessible t.2 lvl = true
      · have hga : ¬ tn = "get_all".data := by
          rintro rfl
          have hn : lookupStr toolToSection ("get_all".data) = none := by decide
          rw [hn] at hmap
          exact Option.noConfusion hmap
        have hgs : ¬ tn = "get_section".data := by
          rintro rfl
          have hn : lookupStr toolToSection ("get_section".data) = none := by decide
          rw [hn] at hmap
          exact Option.noConfusion hmap
        simp only [if_neg (not_not_intro hacc), if_neg hga, if_neg hgs, hmap, h1, h2]
      · simp only [if_pos hacc]

/-- Witness for C5: `get_about` is mapped to section `about`; with two
different filtered maps both lacking `about`, the outcomes coincide. -/
theorem claim_C5_witness :
    lookupStr toolToSection "get_about".data = some "about".data ∧
    lookupStr ([] : List (Str × Str)) "about".data = none ∧
    lookupStr [("other".data, "x".data)] "about".data = none ∧
    handleToolsCall pubW (some "get_about".data) none []
      = handleToolsCall pubW (some "get_about".data) none [("other".data, "x".data)] :=
  ⟨by decide, by decide, by decide,
    claim_C5_amended.2 pubW "get_about".data "about".data [] [("other".data, "x".data)]
      (by decide) (by decide) (by decide)⟩

/-- C6: the level the Content Filter enforces for a block is the explicit
block level when one is present, otherwise the declared section level,
defaulting to public when the section declares none; consequently an
inherited block of a section declared restricted is rejected for a public
requester and kept for a restricted requester. -/
theorem claim_C6_effective_level :
    (∀ (s : ParsedSection) (b : ContentBlock),
      (b.accessLevel ≠ inheritedW → effectiveLevel s b = b.accessLevel) ∧
      (b.accessLevel = inheritedW → s.defaultAccessLevel = none →
        effectiveLevel s b = pubW) ∧
      (b.accessLevel = inheritedW → ∀ l, s.defaultAccessLevel = some l →
        effectiveLevel s b = l)) ∧
    (∀ (s : ParsedSection) (b : ContentBlock),
      s.defaultAccessLevel = some resW → b.accessLevel = inheritedW →
      isAccessible (effectiveLevel s b) pubW = false ∧
      isAccessible (effectiveLevel s b) resW = true ∧
      (b ∈ s.content → b.content ∈ accessibleBlocks s resW)) := by
  constructor
  · intro s b
    refine ⟨?_, ?_, ?_⟩
    · intro hb
      simp [effectiveLevel, resolveContentAccessLevel, hb]
    · intro hb hd
      simp [effectiveLevel, resolveContentAccessLevel, hb, hd]
    · intro hb l hd
      simp [effectiveLevel, resolveContentAccessLevel, hb, hd]
  · intro s b hd hb
    have heff : effectiveLevel s b = resW := by
      simp [effectiveLevel, resolveContentAccessLevel, hb, hd]
    refine ⟨by rw [heff]; decide, by rw [heff]; decide, ?_⟩
    intro hmem
    exact mem_filterMap_guard.mpr ⟨b, hmem, by rw [heff]; decide, rfl⟩

/-- Witness for C6: a concrete restricted section holding one inherited
block; the block is rejected at public level, kept at restricted level,
and its text appears among the accessible blocks. -/
theorem claim_C6_witness :
    (ParsedSection.mk "notes".data (some resW) [⟨"Secret".data, inheritedW⟩]).defaultAccessLevel
        = some resW ∧
    (ContentBlock.mk "Secret".data inheritedW).accessLevel = inheritedW ∧
    isAccessible
      (effectiveLevel ⟨"notes".data, some resW, [⟨"Secret".data, inheritedW⟩]⟩
        ⟨"Secret".data, inheritedW⟩) pubW = false ∧
    isAccessible
      (effectiveLevel ⟨"notes".data, some resW, [⟨"Secret".data, inheritedW⟩]⟩
        ⟨"Secret".data, inheritedW⟩) resW = true ∧
    ("Secret".data ∈
      accessibleBlocks ⟨"notes".data, some resW, [⟨"Secret".data, inheritedW⟩]⟩ resW) :=
  ⟨by decide, by decide,
    (claim_C6_effective_level.2 ⟨"notes".data, some resW, [⟨"Secret".data, inheritedW⟩]⟩
      ⟨"Secret".data, inheritedW⟩ (by decide) (by decide)).1,
    (claim_C6_effective_level.2 ⟨"notes".data, some resW, [⟨"Secret".data, inheritedW⟩]⟩
      ⟨"Secret".data, inheritedW⟩ (by decide) (by decide)).2.1,
    (claim_C6_effective_level.2 ⟨"notes".data, some resW, [⟨"Secret".data, inheritedW⟩]⟩
      ⟨"Secret".data, inheritedW⟩ (by decide) (by decide)).2.2 (by decide)⟩

/-- C9 counterexample: on `[FOO] @bad\n` the claim predicts exactly one
Format Error (the bad same-line header marker; there is no `@token` body
line), but the two regex scans of `validateAccessFormat` report the same
offending token twice — once as a section error and once as a content
error. -/
theorem claim_C9_counterexample :
    validateAccessFormat "[FOO] @bad\n".data =
      ⟨false, [.sectionIssue "FOO".data "bad".data, .contentIssue "bad".data], []⟩ ∧
    (validateAccessFormat "[FOO] @bad\n".data).errors.length ≠ 1 :=
  ⟨by decide, by decide⟩

/-- C9 amended: format validation accumulates, in one pass, one error per
occurrence of a bracketed header followed (across any whitespace, line
breaks included) by a non-canonical `@token`, plus one error per
occurrence of a non-canonical `@token` followed by whitespace ending in a
newline — so a bad same-line header marker is reported by both scans, a
bad `@token` at the end of a line is reported even mid-line, and a bad
`@token` at end of input with no trailing newline is not reported. -/
theorem claim_C9_amended :
    (∀ content, (validateAccessFormat content).errors =
      (scanHeaderLevels content).filterMap
        (fun p => if p.2 ∈ levelOrder then none
                  else some (FormatIssue.sectionIssue p.1 p.2)) ++
      (scanContentLevels content).filterMap
        (fun w => if w ∈ levelOrder then none else some (FormatIssue.contentIssue w))) ∧
    validateAccessFormat "[FOO] @bad\nhello @world\n".data =
      ⟨false, [.sectionIssue "FOO".data "bad".data, .contentIssue "bad".data,
               .contentIssue "world".data], []⟩ ∧
    validateAccessFormat "xx\n@bad".data = ⟨true, [], []⟩ :=
  ⟨fun _ => rfl, by decide, by decide⟩

theorem length_filterMap_ite2 {α β : Type} (l : List α) (P Q : α → Prop)
    [DecidablePred P] [DecidablePred Q] (f : α → β) :
    (l.filterMap fun a => if P a then none else if Q a then some (f a) else none).length
      = (l.filter fun a => decide (¬ P a ∧ Q a)).length := by
  induction l with
  | nil => rfl
  | cons a t ih =>
    by_cases hp : P a
    · simp [List.filterMap_cons, List.filter_cons, hp, ih]
    · by_cases hq : Q a
      · simp [List.filterMap_cons, List.filter_cons, hp, hq, ih]
      · simp [List.filterMap_cons, List.filter_cons, hp, hq, ih]

/-- The number of violating (declared section, non-inherited lower-ranked
block) pairs of one section entry, stated with the rank function of the
specification. -/
def sectionViolationCount (e : Str × ParsedSection) : Nat :=
  match e.2.defaultAccessLevel with
  | none => 0
  | some lv =>
    (e.2.content.filter (fun b =>
      decide (¬ b.accessLevel = inheritedW ∧ rank b.accessLevel < rank lv))).length

/-- The total number of violating pairs of a parsed document. -/
def countViolations (secs : List (Str × ParsedSection)) : Nat :=
  (secs.map sectionViolationCount).sum

/-- C3: over every parsed document whose declared levels and block levels
are canonical (which the upstream format validation guarantees), the
Security Validator reports exactly one violation per (declared section,
non-inherited block ranked strictly below it) pair — accumulating them
all — and nothing for undeclared sections or inherited blocks, whose pairs
contribute zero to the count; concretely, a restricted section holding one
inherited block and one explicitly public block yields exactly one
violation carrying that section name. -/
theorem claim_C3_validator_violations :
    (∀ secs : List (Str × ParsedSection),
      (∀ e ∈ secs, (e.2.defaultAccessLevel.getD pubW) ∈ levelOrder) →
      (∀ e ∈ secs, ∀ b ∈ e.2.content,
        b.accessLevel = inheritedW ∨ b.accessLevel ∈ levelOrder) →
      (validateSections secs).length = countViolations secs) ∧
    validateSections
      [("notes".data, ⟨"notes".data, some resW,
        [⟨"Secret".data, inheritedW⟩, ⟨"PublicNote".data, pubW⟩]⟩)]
      = [⟨"notes".data, resW, pubW⟩] := by
  constructor
  · intro secs
    induction secs with
    | nil => intro _ _; rfl
    | cons e t ih =>
      intro h1 h2
      have ihl := ih (fun e' he' => h1 e' (List.mem_cons_of_mem _ he'))
                     (fun e' he' => h2 e' (List.mem_cons_of_mem _ he'))
      have hcons : validateSections (e :: t) = sectionViolations e ++ validateSections t := by
        simp [validateSections]
      have hcons2 : countViolations (e :: t) = sectionViolationCount e + countViolations t := by
        simp [countViolations]
      rw [hcons, List.length_append, ihl, hcons2]
      congr 1
      have he1 := h1 e (List.mem_cons_self _ _)
      have he2 := h2 e (List.mem_cons_self _ _)
      unfold sectionViolations sectionViolationCount
      cases hd : e.2.defaultAccessLevel with
      | none => rfl
      | some lv =>
        rw [hd] at he1
        simp only [Option.getD_some] at he1
        rw [length_filterMap_ite2]
        congr 1
        apply List.filter_congr
        intro b hb
        rcases he2 b hb with hbi | hbc
        · simp [hbi]
        · have hblk := indexOfLevel_eq_rank hbc
          have hlvl := indexOfLevel_eq_rank he1
          apply decide_eq_decide.mpr
          apply and_congr_right
          intro _
          rw [hblk, hlvl]
          exact Int.ofNat_lt
  · decide

/-- Witness for C3 at the concrete one-violation document of its second
conjunct: the hypotheses hold and the count equality follows. -/
theorem claim_C3_witness :
    (∀ e ∈ [(("notes".data : Str), (⟨"notes".data, some resW,
        [⟨"Secret".data, inheritedW⟩, ⟨"PublicNote".data, pubW⟩]⟩ : ParsedSection))],
      (e.2.defaultAccessLevel.getD pubW) ∈ levelOrder) ∧
    (∀ e ∈ [(("notes".data : Str), (⟨"notes".data, some resW,
        [⟨"Secret".data, inheritedW⟩, ⟨"PublicNote".data, pubW⟩]⟩ : ParsedSection))],
      ∀ b ∈ e.2.content, b.accessLevel = inheritedW ∨ b.accessLevel ∈ levelOrder) ∧
    (validateSections
      [("notes".data, ⟨"notes".data, some resW,
        [⟨"Secret".data, inheritedW⟩, ⟨"PublicNote".data, pubW⟩]⟩)]).length =
      countViolations
        [("notes".data, ⟨"notes".data, some resW,
          [⟨"Secret".data, inheritedW⟩, ⟨"PublicNote".data, pubW⟩]⟩)] :=
  ⟨by decide, by decide,
    claim_C3_validator_violations.1
      [("notes".data, ⟨"notes".data, some resW,
        [⟨"Secret".data, inheritedW⟩, ⟨"PublicNote".data, pubW⟩]⟩)]
      (by decide) (by decide)⟩

/-- A document with a fully private section and a public section. -/
def c4Doc : Str := "[SECRETS] @private\nTopSecret\n[ABOUT]\nHello".data

/-- C4: for every document text and requester level, the served map holds
a section name exactly when some parsed section entry of that name has at
least one block accessible at that level with non-empty trimmed text; in
particular `secrets`, a section of solely private content, is entirely
absent from the public-level result — not present with empty text — even
though the section exists in the parsed document. -/
theorem claim_C4_section_omission :
    (∀ content lvl k,
      lookupStr (loadDaemonData lvl content) k ≠ none ↔
        ∃ e ∈ parseDaemonDataWithAccessServer content, e.1 = k ∧
          ∃ b ∈ e.2.content, isAccessible (effectiveLevel e.2 b) lvl = true ∧
            trim b.content ≠ []) ∧
    lookupStr (loadDaemonData pubW c4Doc) "secrets".data = none ∧
    lookupStr (loadDaemonData pubW c4Doc) "about".data = some "Hello".data ∧
    (∃ e ∈ parseDaemonDataWithAccessServer c4Doc, e.1 = "secrets".data) :=
  ⟨lookup_load_iff, by decide, by decide, by decide⟩

/-- C7 counterexample: on a body whose very first line is the marker
`@public`, the claim predicts a single explicitly public block `Text` and
no inherited block; the splitter, which requires a newline before the
marker, instead produces one inherited block retaining the literal marker
line. -/
theorem claim_C7_counterexample :
    parseContentBlocks "@public\nText".data = [⟨"@public\nText".data, inheritedW⟩] ∧
    parseContentBlocks "@public\nText".data ≠ [⟨"Text".data, pubW⟩] :=
  ⟨by decide, by decide⟩

/-- C7 amended: splitting a body on marker occurrences that carry a
preceding newline (a line consisting of `@public`, `@restricted` or
`@private` up to trailing whitespace; a marker on the very first line of
the body, or one whose preceding newline was already consumed by the
previous marker, is not recognised and stays ordinary text) yields the
blocks: the text before the first recognised marker becomes the inherited
block when non-empty after trimming, each (marker, following text) pair
becomes an explicitly-levelled block when non-empty after trimming, and
empty-after-trimming blocks are dropped. -/
theorem claim_C7_blocks_from_split :
    ∀ body : Str,
      parseContentBlocks body =
        (if trim (extractMarked body).1 = [] then []
         else [⟨trim (extractMarked body).1, inheritedW⟩]) ++
        (extractMarked body).2.filterMap
          (fun p => if trim p.2 = [] then none else some ⟨trim p.2, p.1⟩) := by
  intro body
  unfold parseContentBlocks splitSep extractMarked
  rw [splitSepGo_eq_extract (body.length + 1) body]
  dsimp only
  rw [List.drop_succ_cons, List.drop_zero, pairBlocks_flattenPairs]

/-- C10: raising the requester level from `x` to `y` with
`rank x ≤ rank y` never removes content: every section name served at `x`
is served at `y`, and for every parsed section the accessible-block list
at `x` is a sublist of the one at `y`. -/
theorem claim_C10_filter_monotone :
    ∀ content x y, x ∈ levelOrder → y ∈ levelOrder → rank x ≤ rank y →
      (∀ k, lookupStr (loadDaemonData x content) k ≠ none →
        lookupStr (loadDaemonData y content) k ≠ none) ∧
      (∀ e ∈ parseDaemonDataWithAccessServer content,
        List.Sublist (accessibleBlocks e.2 x) (accessibleBlocks e.2 y)) := by
  intro content x y hx hy hr
  have hidx : indexOfLevel x ≤ indexOfLevel y := by
    rw [indexOfLevel_eq_rank hx, indexOfLevel_eq_rank hy]
    exact_mod_cast hr
  constructor
  · intro k hk
    rcases (lookup_load_iff content x k).mp hk with ⟨e, he, hek, b, hb, hacc, hbt⟩
    exact (lookup_load_iff content y k).mpr
      ⟨e, he, hek, b, hb, isAccessible_mono hidx hacc, hbt⟩
  · intro e _
    unfold accessibleBlocks
    exact filterMap_guard_sublist _ _ _ _ (fun b hb => isAccessible_mono hidx hb)

/-- Witness for C10 on a concrete document, from public to private. -/
theorem claim_C10_witness :
    pubW ∈ levelOrder ∧ priW ∈ levelOrder ∧ rank pubW ≤ rank priW ∧
    lookupStr
      (loadDaemonData priW "[SECRETS] @private\nTopSecret\n[ABOUT]\nHello".data)
      "about".data ≠ none :=
  ⟨by decide, by decide, by decide,
    (claim_C10_filter_monotone "[SECRETS] @private\nTopSecret\n[ABOUT]\nHello".data
      pubW priW (by decide) (by decide) (by decide)).1 "about".data (by decide)⟩

end Daemon
